import Mathlib

/-!
# Verification of the validator agent (`src/agents/validator.js`)

This file gives a shallow embedding of the plan-validation engine of the
task-orchestrator repository and proves the frozen claims about it.

Modelling conventions:
* JavaScript numbers are modelled as `ℚ` (all arithmetic in the validator is
  exact on small rationals); `Math.round` / `Math.ceil` are `jsRound` /
  `Rat.ceil`.
* A `Step` carries the fields the validator reads.  `duration` is an
  `Option String` because the validator dereferences it without a guard
  (`step.duration.match(...)`), so an absent duration raises a `TypeError`;
  every other field is read behind a truthiness guard or stringified, so an
  absent value cannot raise and the present-value type suffices.
* A thrown JS exception is an `Except.error` carrying the message; the
  `try`/`catch` of `validatePlan` is the `match` at the end of `validatePlan`.
  The `plan` argument itself is an `Option (List Step)` so that a
  `null`/`undefined` plan (whose `.length` dereference in the logging
  statement *precedes* the `try` block) can be expressed.
* JS objects keyed by integer-like step ids enumerate their keys in ascending
  numeric order; `graphKeys` sorts accordingly.  JS `Set` keeps insertion
  order and deduplicates, which `jsSetAdd` mirrors.
* The `details` payloads of findings are omitted: they are free-form echo of
  already-modelled data and no verified property reads them.
-/

deriving instance DecidableEq for Except

namespace TaskOrchestrator

/-!
The standard `ℚ` arithmetic operations of Batteries are `@[irreducible]`,
which blocks kernel evaluation of concrete plans.  The engine therefore
computes with the following wrappers, each of which is proved equal to the
corresponding standard operation (`qAdd_eq` …) so that all reasoning happens
over ordinary rational arithmetic.
-/

/-- Kernel-computable rational addition (see `qAdd_eq`). -/
def qAdd (a b : ℚ) : ℚ := Rat.divInt (a.num * b.den + b.num * a.den) (a.den * b.den)

/-- Kernel-computable rational subtraction (see `qSub_eq`). -/
def qSub (a b : ℚ) : ℚ := Rat.divInt (a.num * b.den - b.num * a.den) (a.den * b.den)

/-- Kernel-computable rational multiplication (see `qMul_eq`). -/
def qMul (a b : ℚ) : ℚ := Rat.divInt (a.num * b.num) (a.den * b.den)

/-- Kernel-computable rational division (see `qDiv_eq`); division by `0`
yields `0` exactly as `/` does. -/
def qDiv (a b : ℚ) : ℚ := Rat.divInt (a.num * b.den) (b.num * a.den)

/-- Kernel-computable absolute value (see `qAbs_eq`). -/
def qAbs (q : ℚ) : ℚ := Rat.divInt q.num.natAbs q.den

/-- JS `Math.round`: round half toward positive infinity. -/
def jsRound (q : ℚ) : Int := Rat.floor (qAdd q (mkRat 1 2))

/-- `haystack.includes(needle)` on exploded strings. -/
def listContains : List Char → List Char → Bool
  | s, pat =>
    if pat.isPrefixOf s then true
    else
      match s with
      | [] => false
      | _ :: rest => listContains rest pat

/-- JS `String.prototype.includes`. -/
def jsIncludes (s pat : String) : Bool := listContains s.toList pat.toList

/-- JS `String.prototype.toLowerCase` (per character, ASCII suffices here). -/
def jsToLower (s : String) : String := ⟨s.toList.map Char.toLower⟩

/-- Numeric value of a run of decimal digits. -/
def digitsToNat (ds : List Char) : Nat :=
  ds.foldl (fun n c => n * 10 + (c.toNat - '0'.toNat)) 0

/-- Leftmost match of the regex `/(\d+)-(\d+)/`, returning the two captures.
A candidate start position matches exactly when a maximal digit run is
followed by a dash and a digit (shortening the greedy first run can never
help, as the run contains no dash), and the regex engine advances one
position on failure. -/
def findDurationRange : List Char → Option (Nat × Nat)
  | [] => none
  | c :: rest =>
    if c.isDigit then
      let ds := (c :: rest).takeWhile Char.isDigit
      match (c :: rest).dropWhile Char.isDigit with
      | '-' :: r2 =>
        let ds2 := r2.takeWhile Char.isDigit
        if ds2.isEmpty then findDurationRange rest
        else some (digitsToNat ds, digitsToNat ds2)
      | _ => findDurationRange rest
    else findDurationRange rest

/-- `s.match(/(\d+)-(\d+)/)`, reduced to its two numeric captures. -/
def jsMatchRange (s : String) : Option (Nat × Nat) := findDurationRange s.toList

/-- Leftmost match of `/(\d+)\s*word/`, returning the numeric capture. -/
def findNumBeforeWord (word : List Char) : List Char → Option Nat
  | [] => none
  | c :: rest =>
    if c.isDigit then
      let ds := (c :: rest).takeWhile Char.isDigit
      let tail := ((c :: rest).dropWhile Char.isDigit).dropWhile Char.isWhitespace
      if word.isPrefixOf tail then some (digitsToNat ds)
      else findNumBeforeWord word rest
    else findNumBeforeWord word rest

/-- One step of a plan (§ data model of the validator). -/
structure Step where
  id : Nat
  title : String
  description : String
  duration : Option String
  resources : List String
  dependencies : List Nat
deriving Repr, DecidableEq

/-- `type` of a finding. -/
inductive FType where
  | passed
  | warning
  | failed
deriving Repr, DecidableEq

/-- One evaluation result (`details` payload omitted, see module docstring). -/
structure Finding where
  id : String
  ftype : FType
  title : String
  message : String
deriving Repr, DecidableEq

/-- Entry of `identifyRisks` / `analyzeStepRisks`. -/
structure RiskEntry where
  step : Nat
  title : String
  risk : String
  level : String
  impact : String
deriving Repr, DecidableEq

/-- Entry of `identifyUnbalancedDurations`. -/
structure UnbEntry where
  step : Nat
  title : String
  duration : String
  difference : ℚ
deriving Repr, DecidableEq

/-- Entry of `identifyComplexDependencies`. -/
structure ComplexEntry where
  step : Nat
  dependencies : Nat
  assessment : String
deriving Repr, DecidableEq

/-- Entry of `generateRecommendations`. -/
structure Recom where
  priority : String
  action : String
  reason : String
deriving Repr, DecidableEq

/-- `breakdown` of `generateValidationSummary`. -/
structure Breakdown where
  passed : Nat
  warnings : Nat
  failed : Nat
deriving Repr, DecidableEq

/-- Result of `generateValidationSummary`. -/
structure VSummary where
  score : Int
  status : String
  breakdown : Breakdown
  overall : String
deriving Repr, DecidableEq

/-- Result object of `validatePlan`: the normal shape (`success:true`) or the
catch-clause shape (`success:false` with `error` and fallback validations). -/
inductive VResult where
  | success (validations : List Finding) (score : Int) (summary : VSummary)
      (recommendations : List Recom)
  | fallback (error : String) (validations : List Finding)
deriving Repr, DecidableEq

/-- The `success` field of the returned object. -/
def VResult.successFlag : VResult → Bool
  | .success .. => true
  | .fallback .. => false

/-- The `validations` field (present in both shapes). -/
def VResult.validationsList : VResult → List Finding
  | .success v .. => v
  | .fallback _ v => v

/-- `riskFactors.high` of the constructor. -/
def highRiskFactors : List String :=
  ["tight timeline", "complex dependencies", "unknown technology",
   "limited resources", "multiple stakeholders"]

/-- `riskFactors.medium` of the constructor. -/
def mediumRiskFactors : List String :=
  ["moderate complexity", "some dependencies", "limited expertise",
   "budget constraints"]

/-- `riskFactors.low` of the constructor (read by no rule; kept for
completeness). -/
def lowRiskFactors : List String :=
  ["well-defined", "experienced team", "ample resources", "clear requirements"]

/-- `assessStepFeasibility`: duration text mentions hours, resources
non-empty, description longer than 20 characters. -/
def assessStepFeasibility (step : Step) : Bool :=
  (match step.duration with
   | some d => jsIncludes d "hours"
   | none => false)
  && decide (step.resources.length > 0)
  && decide (step.description.length > 20)

/-- The per-step finding of `validateFeasibility`. -/
def feasibilityFinding (i : Nat) (step : Step) : Finding :=
  let ok := assessStepFeasibility step
  { id := "feasibility-" ++ toString (i + 1)
    ftype := if ok then .passed else .warning
    title := "Step " ++ toString (i + 1) ++ " Feasibility"
    message :=
      if ok then "\"" ++ step.title ++ "\" appears feasible"
      else "\"" ++ step.title ++ "\" may require additional resources or expertise" }

/-- The indexed `plan.forEach` loop of `validateFeasibility`. -/
def feasibilityPerStep : Nat → List Step → List Finding
  | _, [] => []
  | i, s :: rest => feasibilityFinding i s :: feasibilityPerStep (i + 1) rest

/-- `validateFeasibility`. -/
def validateFeasibility (_task : String) (plan : List Step) : List Finding :=
  let perStep := feasibilityPerStep 0 plan
  let overallFeasible := perStep.all (fun v => v.ftype == FType.passed)
  perStep ++
    [{ id := "overall-feasibility"
       ftype := if overallFeasible then .passed else .warning
       title := "Overall Feasibility"
       message :=
         if overallFeasible then "The overall plan appears feasible"
         else "Some steps may require adjustment for full feasibility" }]

/-- JS `Set.prototype.add` on an insertion-ordered duplicate-free list. -/
def jsSetAdd (l : List String) (x : String) : List String :=
  if x ∈ l then l else l ++ [x]

/-- The `totalResources` set of `validateResources`. -/
def distinctResources (plan : List Step) : List String :=
  plan.foldl (fun acc s => s.resources.foldl jsSetAdd acc) []

/-- `criticalKeywords` of `identifyCriticalResources`. -/
def criticalKeywords : List String :=
  ["specialized", "expert", "licensed", "premium", "custom", "rare"]

/-- `identifyCriticalResources`. -/
def identifyCriticalResources (plan : List Step) : List String :=
  plan.foldl (fun acc s =>
    s.resources.foldl (fun acc2 r =>
      if criticalKeywords.any (fun k => jsIncludes (jsToLower r) k) then jsSetAdd acc2 r
      else acc2) acc) []

/-- `validateResources`. -/
def validateResources (_task : String) (plan : List Step) : List Finding :=
  let resourceCount := (distinctResources plan).length
  let f1 : Finding :=
    { id := "resource-count"
      ftype := if resourceCount ≤ 10 then .passed else .warning
      title := "Resource Requirements"
      message :=
        if resourceCount ≤ 10 then
          "Plan requires " ++ toString resourceCount ++ " distinct resources (manageable)"
        else
          "Plan requires " ++ toString resourceCount ++ " distinct resources (consider consolidation)" }
  let crit := identifyCriticalResources plan
  if crit.length > 0 then
    [f1,
     { id := "critical-resources"
       ftype := .warning
       title := "Critical Resources"
       message := "Identified " ++ toString crit.length ++ " potentially critical resources" }]
  else [f1]

/-- The `TypeError` message of dereferencing a missing `duration`. -/
def durationTypeError : String := "Cannot read properties of undefined (reading 'match')"

/-- `step.duration.match(/(\d+)-(\d+)/)`: throws when `duration` is absent. -/
def stepDurationMatch (s : Step) : Except String (Option (Nat × Nat)) :=
  match s.duration with
  | some d => Except.ok (jsMatchRange d)
  | none => Except.error durationTypeError

/-- `calculatePlanDuration`: sum of duration midpoints (default 2) bucketed
into an hours / days / weeks string. -/
def calculatePlanDuration (plan : List Step) : Except String String := do
  let totalHours ← plan.foldlM (fun (acc : ℚ) s => do
    let m ← stepDurationMatch s
    match m with
    | some (a, b) => pure (qAdd acc (mkRat (a + b) 2))
    | none => pure (qAdd acc 2)) (0 : ℚ)
  if totalHours ≤ 8 then pure (toString (Rat.ceil totalHours).toNat ++ " hours")
  else if totalHours ≤ 40 then pure (toString (Rat.ceil (qDiv totalHours 8)).toNat ++ " days")
  else pure (toString (Rat.ceil (qDiv totalHours 40)).toNat ++ " weeks")

/-- `assessTimeline`, reduced to the `(status, message)` pair that feeds the
timeline finding (`assessment`/`recommendation` live in the omitted details;
the `daysMatch` binding of the source is dead and dropped). -/
def assessTimeline (duration : String) (stepCount : Nat) : FType × String :=
  let weeksMatch := findNumBeforeWord "weeks".toList duration.toList
  if (match weeksMatch with | some w => decide (w > 4) | none => false) then
    (.warning, "Timeline may be too long for effective execution")
  else if stepCount > 10 then
    (.warning, "Many steps may complicate timeline management")
  else
    (.passed, "Timeline appears reasonable")

/-- The loop of `identifyUnbalancedDurations`.  `prev` is `previousDuration`;
the JS truthiness test `previousDuration && ...` skips the comparison both
when no duration has parsed yet and when the previous midpoint was `0`.
Steps whose duration does not parse are skipped entirely and leave `prev`
unchanged. -/
def identifyUnbalancedAux (prev : Option ℚ) (i : Nat) :
    List Step → Except String (List UnbEntry)
  | [] => Except.ok []
  | s :: rest => do
    let m ← stepDurationMatch s
    match m with
    | some (a, b) =>
      let avg : ℚ := mkRat (a + b) 2
      let tail ← identifyUnbalancedAux (some avg) (i + 1) rest
      match prev with
      | some p =>
        if p ≠ 0 ∧ qAbs (qSub avg p) > 4 then
          pure ({ step := i + 1, title := s.title, duration := s.duration.getD ""
                  difference := qAbs (qSub avg p) } :: tail)
        else pure tail
      | none => pure tail
    | none => identifyUnbalancedAux prev (i + 1) rest

/-- `identifyUnbalancedDurations`. -/
def identifyUnbalancedDurations (plan : List Step) : Except String (List UnbEntry) :=
  identifyUnbalancedAux none 0 plan

/-- `validateTimeline`. -/
def validateTimeline (_task : String) (plan : List Step) :
    Except String (List Finding) := do
  let totalDuration ← calculatePlanDuration plan
  let ts := assessTimeline totalDuration plan.length
  let f1 : Finding :=
    { id := "timeline-assessment", ftype := ts.1
      title := "Timeline Assessment", message := ts.2 }
  let unbalanced ← identifyUnbalancedDurations plan
  if unbalanced.length > 0 then
    pure [f1,
      { id := "duration-balance"
        ftype := .warning
        title := "Duration Balance"
        message := "Found " ++ toString unbalanced.length ++ " steps with potentially unbalanced durations" }]
  else pure [f1]

/-- Assignment `graph[id] = deps` on an insertion-ordered association list
(later assignment to an existing key overwrites in place). -/
def upsert : List (Nat × List Nat) → Nat → List Nat → List (Nat × List Nat)
  | [], k, v => [(k, v)]
  | (k', v') :: rest, k, v =>
    if k' = k then (k, v) :: rest else (k', v') :: upsert rest k v

/-- `buildDependencyGraph`. -/
def buildDependencyGraph (plan : List Step) : List (Nat × List Nat) :=
  plan.foldl (fun g s => upsert g s.id s.dependencies) []

/-- `graph[node]`. -/
def graphLookup (g : List (Nat × List Nat)) (k : Nat) : Option (List Nat) :=
  (g.find? (fun e => e.1 == k)).map (fun e => e.2)

/-- `graph[node] || []`. -/
def graphDeps (g : List (Nat × List Nat)) (k : Nat) : List Nat :=
  (graphLookup g k).getD []

/-- Ascending insertion into a sorted list. -/
def insertAsc (n : Nat) : List Nat → List Nat
  | [] => [n]
  | m :: rest => if n ≤ m then n :: m :: rest else m :: insertAsc n rest

/-- Ascending sort: JS objects enumerate integer-like keys in ascending
numeric order, so `Object.keys(graph)` is the sorted key list. -/
def sortAsc : List Nat → List Nat
  | [] => []
  | n :: rest => insertAsc n (sortAsc rest)

/-- `Object.keys(graph)` (keys are unique by construction of `upsert`). -/
def graphKeys (g : List (Nat × List Nat)) : List Nat := sortAsc (g.map (fun e => e.1))

/-- The mutable state of `detectCircularDependencies`: the `visited` and
`recursionStack` objects (as the sets of keys currently holding `true`) and
the `cycles` accumulator. -/
structure DfsState where
  visited : List Nat
  recStack : List Nat
  cycles : List (List Nat)
deriving Repr, DecidableEq

/-- The recursive `dfs` closure of `detectCircularDependencies`.  The boolean
is its return value; note that the early `return true` paths do *not* clear
`recursionStack[node]`, exactly as in the source.  `fuel` bounds the
recursion depth; each recursive call enters an unvisited node and marks it
visited first, so `|universe| + 1` fuel is never exhausted. -/
def dfsVisit (g : List (Nat × List Nat)) :
    Nat → Nat → List Nat → DfsState → Bool × DfsState
  | 0, _, _, st => (false, st)
  | fuel + 1, node, path, st =>
    if node ∈ st.visited then
      (false, { st with recStack := st.recStack.erase node })
    else
      let st1 : DfsState :=
        { st with visited := node :: st.visited, recStack := node :: st.recStack }
      let r :=
        (graphDeps g node).foldl (fun (acc : Bool × DfsState) nb =>
          if acc.1 then acc
          else if nb ∈ acc.2.visited then
            if nb ∈ acc.2.recStack then
              (true, { acc.2 with cycles := acc.2.cycles ++ [path ++ [node, nb]] })
            else (false, acc.2)
          else dfsVisit g fuel nb (path ++ [node]) acc.2) (false, st1)
      if r.1 then r
      else (false, { r.2 with recStack := r.2.recStack.erase node })

/-- Every id mentioned by the graph (keys and dependency targets). -/
def graphUniverse (g : List (Nat × List Nat)) : List Nat :=
  g.foldr (fun e acc => e.1 :: e.2 ++ acc) []

/-- `detectCircularDependencies`. -/
def detectCircularDependencies (g : List (Nat × List Nat)) : List (List Nat) :=
  let fuel := (graphUniverse g).length + 1
  let final := (graphKeys g).foldl
    (fun st node => if node ∈ st.visited then st else (dfsVisit g fuel node [] st).2)
    ⟨[], [], []⟩
  final.cycles

/-- `identifyComplexDependencies`. -/
def identifyComplexDependencies (g : List (Nat × List Nat)) : List ComplexEntry :=
  (graphKeys g).foldl (fun acc node =>
    let deps := graphDeps g node
    if deps.length > 2 then
      acc ++ [{ step := node, dependencies := deps.length, assessment := "Complex" }]
    else acc) []

/-- `countTotalDependencies`. -/
def countTotalDependencies (plan : List Step) : Nat :=
  plan.foldl (fun total s => total + s.dependencies.length) 0

/-- The recursive `calculateDepth` closure of `calculateMaxDependencyDepth`.
Its JS return value is discarded by every caller; the function's effect is
the running maximum of `depth` over every call that enters an unvisited
node, which is what this returns (an already-visited node contributes `0`).
Each neighbour recursion receives a fresh copy of the per-path visited set,
as in `new Set(visited)`.  `fuel = none` models exhaustion and is proved
unreachable for the fuel chosen below. -/
def depthGo (g : List (Nat × List Nat)) :
    Nat → Nat → Nat → Finset ℕ → Option Nat
  | 0, _, _, _ => none
  | fuel + 1, node, depth, visited =>
    if node ∈ visited then some 0
    else
      (graphDeps g node).foldlM (fun (m : Nat) nb => do
        let r ← depthGo g fuel nb (depth + 1) (insert node visited)
        pure (max m r)) depth

/-- `calculateMaxDependencyDepth`. -/
def calculateMaxDependencyDepth (g : List (Nat × List Nat)) : Option Nat :=
  let fuel := (graphUniverse g).dedup.length + 1
  (graphKeys g).foldlM (fun (m : Nat) node => do
    let r ← depthGo g fuel node 1 ∅
    pure (max m r)) 0

/-- `validateDependencies`. -/
def validateDependencies (_task : String) (plan : List Step) : List Finding :=
  let g := buildDependencyGraph plan
  let circular := detectCircularDependencies g
  let l1 : List Finding :=
    if circular.length > 0 then
      [{ id := "circular-dependencies"
         ftype := .failed
         title := "Circular Dependencies"
         message := "Found " ++ toString circular.length ++ " circular dependency chains" }]
    else []
  let cx := identifyComplexDependencies g
  let l2 : List Finding :=
    if cx.length > 0 then
      [{ id := "complex-dependencies"
         ftype := .warning
         title := "Complex Dependencies"
         message := "Found " ++ toString cx.length ++ " steps with complex dependencies" }]
    else []
  let clean := cx.length = 0 ∧ circular.length = 0
  l1 ++ l2 ++
    [{ id := "dependency-overview"
       ftype := if clean then .passed else .warning
       title := "Dependency Structure"
       message :=
         if clean then "Dependency structure is clean and manageable"
         else "Some dependency issues need attention" }]

/-- `analyzeStepRisks`: one entry per matching keyword, high factors first. -/
def analyzeStepRisks (step : Step) (index : Nat) : List RiskEntry :=
  let stepText := jsToLower (step.title ++ " " ++ step.description)
  let afterHigh := highRiskFactors.foldl (fun acc factor =>
    if jsIncludes stepText factor then
      acc ++ [{ step := index + 1, title := step.title, risk := factor
                level := "high", impact := "Significant delay or failure risk" }]
    else acc) []
  mediumRiskFactors.foldl (fun acc factor =>
    if jsIncludes stepText factor then
      acc ++ [{ step := index + 1, title := step.title, risk := factor
                level := "medium", impact := "Moderate delay or quality risk" }]
    else acc) afterHigh

/-- The indexed `plan.forEach` loop of `identifyRisks`. -/
def identifyRisksAux : Nat → List Step → List RiskEntry
  | _, [] => []
  | i, s :: rest =>
    let stepRisks := analyzeStepRisks s i
    (if stepRisks.length > 0 then stepRisks else []) ++ identifyRisksAux (i + 1) rest

/-- `identifyRisks`. -/
def identifyRisks (plan : List Step) : List RiskEntry := identifyRisksAux 0 plan

/-- The three additive mitigation signals of one step. -/
def mitigationStepPoints (s : Step) : Nat :=
  (if jsIncludes (jsToLower s.description) "mitigat" then 20 else 0)
  + (if s.resources.any (fun r => jsIncludes (jsToLower r) "backup") then 15 else 0)
  + (if s.dependencies.length < 3 then 10 else 0)

/-- `assessRiskMitigation`: accumulated points against `3 × steps × 10`,
scaled to a percentage and capped at 100.  (For the empty plan the JS code
divides 0 by 0 and yields `NaN`; in `ℚ` the same division yields `0`.) -/
def assessRiskMitigation (plan : List Step) : Int :=
  let acc := plan.foldl (fun (a : Nat × Nat) s => (a.1 + mitigationStepPoints s, a.2 + 3)) (0, 0)
  min 100 (jsRound (qMul (qDiv (acc.1 : ℚ) (qMul (acc.2 : ℚ) 10)) 100))

/-- `validateRisks`. -/
def validateRisks (_task : String) (plan : List Step) : List Finding :=
  let risks := identifyRisks plan
  let highRisks := risks.filter (fun r => r.level == "high")
  let l1 : List Finding :=
    if highRisks.length > 0 then
      [{ id := "high-risks"
         ftype := .warning
         title := "High Risks Identified"
         message := "Found " ++ toString highRisks.length ++ " high-risk areas" }]
    else []
  let mediumRisks := risks.filter (fun r => r.level == "medium")
  let l2 : List Finding :=
    if mediumRisks.length > 0 then
      [{ id := "medium-risks"
         ftype := .warning
         title := "Medium Risks"
         message := "Found " ++ toString mediumRisks.length ++ " medium-risk areas to monitor" }]
    else []
  let ms := assessRiskMitigation plan
  l1 ++ l2 ++
    [{ id := "risk-mitigation"
       ftype := if ms ≥ 70 then .passed else .warning
       title := "Risk Mitigation"
       message :=
         if ms ≥ 70 then "Good risk mitigation planning"
         else "Consider enhancing risk mitigation strategies" }]

/-- The weight table of `calculateValidationScore`. -/
def findingWeight : FType → ℚ
  | .passed => 1
  | .warning => mkRat 1 2
  | .failed => 0

/-- `calculateValidationScore`. -/
def calculateValidationScore (validations : List Finding) : Int :=
  let totalScore : ℚ := validations.foldl (fun acc v => qAdd acc (findingWeight v.ftype)) 0
  let maxScore : ℚ := (validations.length : ℚ)
  jsRound (qMul (qDiv totalScore maxScore) 100)

/-- `generateValidationSummary`. -/
def generateValidationSummary (validations : List Finding) (score : Int) : VSummary :=
  let passed := (validations.filter (fun v => v.ftype == FType.passed)).length
  let warnings := (validations.filter (fun v => v.ftype == FType.warning)).length
  let failed := (validations.filter (fun v => v.ftype == FType.failed)).length
  let status :=
    if score < 60 then "Needs Major Improvements"
    else if score < 80 then "Needs Some Improvements"
    else if score < 90 then "Satisfactory"
    else "Good"
  { score := score
    status := status
    breakdown := { passed := passed, warnings := warnings, failed := failed }
    overall := if score ≥ 80 then "Plan is generally valid" else "Plan needs review" }

/-- `generateRecommendations`. -/
def generateRecommendations (validations : List Finding) : List Recom :=
  let warnings := validations.filter (fun v => v.ftype == FType.warning)
  let failures := validations.filter (fun v => v.ftype == FType.failed)
  let l1 : List Recom :=
    if failures.length > 0 then
      [{ priority := "High"
         action := "Address failed validations before proceeding"
         reason := toString failures.length ++ " critical issues need resolution" }]
    else []
  let l2 : List Recom :=
    if warnings.length > 3 then
      [{ priority := "Medium"
         action := "Review and address warning validations"
         reason := "Multiple (" ++ toString warnings.length ++ ") areas need attention" }]
    else []
  let resourceWarnings := validations.filter
    (fun v => jsIncludes v.title "Resource" && v.ftype == FType.warning)
  let l3 : List Recom :=
    if resourceWarnings.length > 0 then
      [{ priority := "Medium"
         action := "Review resource allocation and availability"
         reason := "Resource-related warnings identified" }]
    else []
  let timelineWarnings := validations.filter
    (fun v => jsIncludes v.title "Timeline" && v.ftype == FType.warning)
  let l4 : List Recom :=
    if timelineWarnings.length > 0 then
      [{ priority := "Medium"
         action := "Review timeline estimates and dependencies"
         reason := "Timeline-related warnings identified" }]
    else []
  l1 ++ l2 ++ l3 ++ l4

/-- `getFallbackValidations`. -/
def getFallbackValidations : List Finding :=
  [{ id := "fallback-1", ftype := .passed, title := "Basic Structure"
     message := "Plan has basic structure and steps" },
   { id := "fallback-2", ftype := .warning, title := "Limited Detail"
     message := "Plan lacks detailed validation due to system limitations" }]

/-- `validatePlan`.  The `console.log` line dereferences `plan.length`
*before* the `try` block, so a missing plan raises out of the function;
everything after is inside the `try` and any raise is converted by the
`catch` clause into the fallback result. -/
def validatePlan (task : String) (plan : Option (List Step)) :
    Except String VResult :=
  match plan with
  | none => Except.error "Cannot read properties of undefined (reading 'length')"
  | some plan =>
    match (do
      let vFeas := validateFeasibility task plan
      let vRes := validateResources task plan
      let vTime ← validateTimeline task plan
      let vDeps := validateDependencies task plan
      let vRisks := validateRisks task plan
      let validations := vFeas ++ vRes ++ vTime ++ vDeps ++ vRisks
      let score := calculateValidationScore validations
      pure (validations, score) : Except String (List Finding × Int)) with
    | Except.ok (validations, score) =>
      Except.ok (VResult.success validations score
        (generateValidationSummary validations score)
        (generateRecommendations validations))
    | Except.error e => Except.ok (VResult.fallback e getFallbackValidations)

/-- The `score` of a returned result, when the normal shape was produced. -/
def okScore : Except String VResult → Option Int
  | Except.ok (.success _ s _ _) => some s
  | _ => none

/-- The `validations` of a returned result (empty when the call raised). -/
def okValidations : Except String VResult → List Finding
  | Except.ok r => r.validationsList
  | Except.error _ => []

/-- The `recommendations` of a returned result (empty in the fallback and
raised cases, which carry none). -/
def okRecommendations : Except String VResult → List Recom
  | Except.ok (.success _ _ _ r) => r
  | _ => []

/-! ## Specification-side definitions

These definitions transcribe the *spec's/claims'* wording (not the source)
and are compared against the source translation above in the refinement
theorems below. -/

/-- Claim-side duration midpoint: a parsable `a-b` duration has midpoint
`(a+b)/2`, anything else takes the fixed fallback midpoint of 2 hours. -/
def claimMidpoint (s : Step) : ℚ :=
  match s.duration with
  | some d =>
    match jsMatchRange d with
    | some (a, b) => mkRat (a + b) 2
    | none => 2
  | none => 2

/-- Claim-side total plan duration: sum of the per-step midpoints. -/
def planTotalMidpoint (plan : List Step) : ℚ :=
  (plan.map claimMidpoint).sum

/-- Claim-side bucketing of a total: at most 8 hours shown in hours, at most
40 hours in days, larger totals in weeks. -/
def durationBucketString (total : ℚ) : String :=
  if total ≤ 8 then toString (Rat.ceil total).toNat ++ " hours"
  else if total ≤ 40 then toString (Rat.ceil (total / 8)).toNat ++ " days"
  else toString (Rat.ceil (total / 40)).toNat ++ " weeks"

/-- The midpoint of a step's duration when it parses, `none` otherwise. -/
def parsedMidpoint (s : Step) : Option ℚ :=
  match s.duration with
  | some d => (jsMatchRange d).map (fun ab => mkRat (ab.1 + ab.2) 2)
  | none => none

/-- Amended-claim-side unbalanced-duration walk: steps with unparsable
durations are skipped entirely (they are never flagged and do not update the
comparison baseline); a parsable step is flagged exactly when the most
recently parsed midpoint exists, is nonzero, and differs from this step's
midpoint by more than 4 hours. -/
def amendedUnbalancedAux (prev : Option ℚ) (i : Nat) : List Step → List UnbEntry
  | [] => []
  | s :: rest =>
    match parsedMidpoint s with
    | some m =>
      (match prev with
       | some p =>
         if p ≠ 0 ∧ qAbs (qSub m p) > 4 then
           [{ step := i + 1, title := s.title, duration := s.duration.getD ""
              difference := qAbs (qSub m p) }]
         else []
       | none => []) ++ amendedUnbalancedAux (some m) (i + 1) rest
    | none => amendedUnbalancedAux prev (i + 1) rest

/-- Amended-claim-side unbalanced-duration detector. -/
def amendedUnbalanced (plan : List Step) : List UnbEntry :=
  amendedUnbalancedAux none 0 plan

/-- The lower-cased concatenated title and description of a step. -/
def stepTextOf (s : Step) : String := jsToLower (s.title ++ " " ++ s.description)

/-- The high-level risk entry produced for keyword `k` on step `s` at
index `i`. -/
def highEntry (s : Step) (i : Nat) (k : String) : RiskEntry :=
  { step := i + 1, title := s.title, risk := k, level := "high"
    impact := "Significant delay or failure risk" }

/-- The medium-level risk entry produced for keyword `k` on step `s` at
index `i`. -/
def medEntry (s : Step) (i : Nat) (k : String) : RiskEntry :=
  { step := i + 1, title := s.title, risk := k, level := "medium"
    impact := "Moderate delay or quality risk" }

/-- Claim-side accumulated mitigation points: the sum over steps of the
three additive signals. -/
def mitigationPoints (plan : List Step) : Nat :=
  (plan.map mitigationStepPoints).sum

/-- Acyclicity of the dependency graph, witnessed by a rank function that
strictly decreases along every edge (equivalent, for finite graphs, to the
absence of directed cycles). -/
def rankAcyclic (g : List (Nat × List Nat)) : Prop :=
  ∃ f : Nat → Nat, ∀ u v, v ∈ graphDeps g u → f v < f u

/-- Reachability along dependency edges. -/
def Reach (g : List (Nat × List Nat)) : Nat → Nat → Prop :=
  Relation.ReflTransGen (fun a b => b ∈ graphDeps g a)

/-- Total weight of a list of findings. -/
def weightSum (l : List Finding) : ℚ :=
  (l.map (fun f => findingWeight f.ftype)).sum

/-! ## Concrete test plans used by counterexamples and witnesses -/

/-- A step that passes every per-step check and triggers no risk keyword. -/
def demoStep : Step :=
  { id := 1, title := "Setup", description := "mitigate the failures"
    duration := some "1-2 hours", resources := ["r"], dependencies := [] }

/-- 95 steps identical to `demoStep` except for distinct ids 1..95: enough
findings for one timeline warning to be rounded away in the overall
score. -/
def plan95 : List Step :=
  (List.range 95).map (fun i => { demoStep with id := i + 1 })

/-- Two steps depending on each other: the circular graph of C3. -/
def c3PlanCyclic : List Step :=
  [{ id := 1, title := "Step one", description := "first part"
     duration := some "1-2 hours", resources := ["r"], dependencies := [2] },
   { id := 2, title := "Step two", description := "second part"
     duration := some "1-2 hours", resources := ["r"], dependencies := [1] }]

/-- A two-step chain without cycles: the acyclic graph of C3. -/
def c3PlanAcyclic : List Step :=
  [{ id := 1, title := "Step one", description := "first part"
     duration := some "1-2 hours", resources := ["r"], dependencies := [] },
   { id := 2, title := "Step two", description := "second part"
     duration := some "1-2 hours", resources := ["r"], dependencies := [1] }]

/-- A step with a 10-hour midpoint. -/
def c5StepA : Step :=
  { id := 1, title := "Long step", description := "takes a while"
    duration := some "10-10 hours", resources := ["r"], dependencies := [] }

/-- A step whose duration does not parse as a range. -/
def c5StepB : Step :=
  { id := 2, title := "Vague step", description := "no numeric duration"
    duration := some "soon", resources := ["r"], dependencies := [] }

/-- The C5 counterexample plan: a parsable step followed by an unparsable
one. -/
def c5Plan : List Step := [c5StepA, c5StepB]

/-- The two-step plan of C6's worked example. -/
def c6Plan : List Step :=
  [{ id := 1, title := "First", description := "one"
     duration := some "1-2 hours", resources := ["r"], dependencies := [] },
   { id := 2, title := "Second", description := "two"
     duration := some "3-4 hours", resources := ["r"], dependencies := [] }]

/-- A step whose description contains a high-risk keyword. -/
def riskyStep : Step :=
  { id := 1, title := "Plan", description := "tight timeline ahead"
    duration := some "1-2 hours", resources := ["r"], dependencies := [] }

/-! ## Bridges from the computable wrappers to standard `ℚ` arithmetic -/

theorem qAdd_eq (a b : ℚ) : qAdd a b = a + b := by
  have ha : (a.den : ℤ) ≠ 0 := by exact_mod_cast a.den_ne_zero
  have hb : (b.den : ℤ) ≠ 0 := by exact_mod_cast b.den_ne_zero
  rw [qAdd, ← Rat.divInt_add_divInt _ _ ha hb, Rat.num_divInt_den, Rat.num_divInt_den]

theorem qSub_eq (a b : ℚ) : qSub a b = a - b := by
  have ha : (a.den : ℤ) ≠ 0 := by exact_mod_cast a.den_ne_zero
  have hb : (b.den : ℤ) ≠ 0 := by exact_mod_cast b.den_ne_zero
  rw [qSub, ← Rat.divInt_sub_divInt _ _ ha hb, Rat.num_divInt_den, Rat.num_divInt_den]

theorem qMul_eq (a b : ℚ) : qMul a b = a * b := by
  rw [qMul, ← Rat.divInt_mul_divInt' a.num a.den b.num b.den, Rat.num_divInt_den,
    Rat.num_divInt_den]

theorem qDiv_eq (a b : ℚ) : qDiv a b = a / b := by
  rw [qDiv, Rat.div_def' a b, mul_comm (a.den : ℤ) b.num]

theorem qAbs_eq (q : ℚ) : qAbs q = |q| := by
  rcases le_or_lt 0 q.num with h | h
  · have hq : 0 ≤ q := by rwa [← Rat.num_nonneg]
    rw [abs_of_nonneg hq, qAbs, Int.natAbs_of_nonneg h, Rat.num_divInt_den]
  · have hq : q < 0 := not_le.mp (fun h' => absurd (Rat.num_nonneg.mpr h') (not_le.mpr h))
    rw [abs_of_neg hq, qAbs, Int.ofNat_natAbs_of_nonpos (le_of_lt h)]
    exact (Rat.neg_def q).symm

theorem mkRat_eq_div (n : ℤ) (d : ℕ) : mkRat n d = (n : ℚ) / (d : ℚ) := by
  rw [Rat.mkRat_eq_divInt, Rat.divInt_eq_div]
  norm_cast

theorem exceptBind_ok {α β ε : Type} (a : α) (f : α → Except ε β) :
    (Except.ok a >>= f) = f a := rfl

theorem exceptBind_err {α β ε : Type} (e : ε) (f : α → Except ε β) :
    ((Except.error e : Except ε α) >>= f) = Except.error e := rfl

theorem exceptPure {α ε : Type} (a : α) : (pure a : Except ε α) = Except.ok a := rfl

theorem ratFloor_eq (q : ℚ) : Rat.floor q = ⌊q⌋ :=
  (Rat.floor_def' q).trans Rat.floor_def.symm

theorem jsRound_eq (q : ℚ) : jsRound q = ⌊q + 1/2⌋ := by
  rw [jsRound, qAdd_eq, ratFloor_eq]
  norm_num [mkRat_eq_div]

/-! ## Structure of `validatePlan` -/

/-- Unfolding of `validatePlan` on a non-null plan: the only fallible rule is
the timeline evaluator, and its raise is converted into the fallback
result. -/
theorem validatePlan_some_eq (task : String) (plan : List Step) :
    validatePlan task (some plan) =
      match validateTimeline task plan with
      | Except.ok vTime =>
        let v := validateFeasibility task plan ++ validateResources task plan ++ vTime ++
          validateDependencies task plan ++ validateRisks task plan
        Except.ok (VResult.success v (calculateValidationScore v)
          (generateValidationSummary v (calculateValidationScore v))
          (generateRecommendations v))
      | Except.error e => Except.ok (VResult.fallback e getFallbackValidations) := by
  cases h : validateTimeline task plan <;>
    simp [validatePlan, h, Except.bind, Except.pure]

/-! ## C3: cycle detection on the two hand-built graphs -/

/-- C3: on the plan with steps `{id 1, deps [2]}` and `{id 2, deps [1]}` the
detector reports exactly the one cycle `[1, 2, 1]`, which contains both ids;
on the plan with steps `{id 1, deps []}` and `{id 2, deps [1]}` it reports no
cycle. -/
theorem c3_cycle_detection :
    detectCircularDependencies (buildDependencyGraph c3PlanCyclic) = [[1, 2, 1]]
    ∧ (1 ∈ ([1, 2, 1] : List Nat) ∧ 2 ∈ ([1, 2, 1] : List Nat))
    ∧ detectCircularDependencies (buildDependencyGraph c3PlanAcyclic) = [] := by
  decide

/-! ## C2: exception containment of `validatePlan` -/

/-- C2 counterexample: the claim asserts that `validatePlan` never
propagates an exception for **any** input, but a `null`/`undefined` plan
raises a `TypeError` in the `console.log` template (`plan.length`) that sits
*before* the `try` block, so the raise escapes to the caller. -/
theorem c2_counterexample :
    validatePlan "demo task" none =
      Except.error "Cannot read properties of undefined (reading 'length')" := rfl

/-- C2 (amended): for every task and every plan that is an actual array, no
exception escapes `validatePlan`: the evaluation pipeline is wrapped in
`try`/`catch`, and on an internal raise the result is `success:false` whose
validations are exactly the two fixed fallback findings — never a mixture
with ordinary findings.  (A `null` plan, by contrast, raises before the
`try`; see the counterexample.) -/
theorem c2_no_throw_for_array_plans :
    ∀ (task : String) (plan : List Step),
      match validatePlan task (some plan) with
      | Except.ok (.success ..) => True
      | Except.ok (.fallback _ v) => v = getFallbackValidations
      | Except.error _ => False := by
  intro task plan
  rw [validatePlan_some_eq]
  cases h : validateTimeline task plan
  case error e => exact rfl
  case ok v => exact trivial

/-! ## C9: determinism of validation -/

/-- C9: validation is deterministic — two calls of `validatePlan` on the
same task and plan return identical results (identical findings, score,
summary and recommendations); the embedding is a pure function of its
arguments, exactly as the source, which consults neither randomness nor
time. -/
theorem c9_deterministic :
    ∀ (task : String) (plan : Option (List Step)) (r₁ r₂ : Except String VResult),
      validatePlan task plan = r₁ → validatePlan task plan = r₂ → r₁ = r₂ :=
  fun _ _ _ _ h₁ h₂ => h₁ ▸ h₂

/-- Witness for C9 at a concrete input. -/
theorem c9_deterministic_witness :
    validatePlan "t" (some [demoStep]) = validatePlan "t" (some [demoStep]) :=
  c9_deterministic "t" (some [demoStep]) _ _ rfl rfl

/-! ## C5: unbalanced-duration detection -/

/-- C5 counterexample: the claim says an unparsable duration takes the
fallback midpoint of 2 hours and is compared against the immediately
preceding step, so in `c5Plan` (midpoint 10 followed by an unparsable step,
claimed midpoint 2, difference 8 > 4) the second step would have to be
flagged; the code instead skips unparsable steps entirely and flags
nothing. -/
theorem c5_counterexample :
    identifyUnbalancedDurations c5Plan = Except.ok []
    ∧ qAbs (qSub (claimMidpoint c5StepB) (claimMidpoint c5StepA)) > 4 := by
  constructor
  · rfl
  · decide

theorem unbalancedAux_eq_amended :
    ∀ (l : List Step) (prev : Option ℚ) (i : Nat),
      l.all (fun s => s.duration.isSome) = true →
      identifyUnbalancedAux prev i l = Except.ok (amendedUnbalancedAux prev i l) := by
  intro l
  induction l with
  | nil => intro prev i _; rfl
  | cons s rest ih =>
    intro prev i hall
    rw [List.all_cons, Bool.and_eq_true] at hall
    obtain ⟨d, hd⟩ := Option.isSome_iff_exists.mp hall.1
    simp only [identifyUnbalancedAux, amendedUnbalancedAux, parsedMidpoint, hd]
    rw [show stepDurationMatch s = Except.ok (jsMatchRange d) from by
      simp [stepDurationMatch, hd]]
    simp only [exceptBind_ok]
    cases hm : jsMatchRange d with
    | none => exact ih prev (i + 1) hall.2
    | some ab =>
      obtain ⟨a, b⟩ := ab
      simp only [Option.map_some]
      rw [ih (some (mkRat (a + b) 2)) (i + 1) hall.2]
      simp only [exceptBind_ok]
      cases prev with
      | none => simp [exceptPure]
      | some p =>
        by_cases hc : p ≠ 0 ∧ qAbs (qSub (mkRat (a + b) 2) p) > 4 <;>
          simp [hc, exceptPure]

/-- C5 (amended): walking the steps in order, a step with an unparsable
duration is never flagged and leaves the comparison baseline unchanged (no
2-hour fallback is applied); a parsable step is flagged exactly when the
most recently parsed midpoint exists, is nonzero (the JS truthiness guard),
and differs from this step's midpoint by more than 4 hours.  Stated for
plans whose steps all carry a duration value (a missing one raises, which is
C2's concern). -/
theorem c5_unbalanced_amended :
    ∀ plan : List Step, plan.all (fun s => s.duration.isSome) = true →
      identifyUnbalancedDurations plan = Except.ok (amendedUnbalanced plan) := by
  intro plan h
  exact unbalancedAux_eq_amended plan none 0 h

/-- Witness for C5 (amended) at a concrete plan. -/
theorem c5_unbalanced_amended_witness :
    c5Plan.all (fun s => s.duration.isSome) = true
    ∧ identifyUnbalancedDurations c5Plan = Except.ok (amendedUnbalanced c5Plan) :=
  ⟨by decide, c5_unbalanced_amended c5Plan (by decide)⟩

/-! ## C6: total plan duration -/

theorem duration_foldlM_eq (l : List Step) :
    ∀ acc : ℚ, l.all (fun s => s.duration.isSome) = true →
      (l.foldlM (fun (acc : ℚ) s => do
          let m ← stepDurationMatch s
          match m with
          | some (a, b) => pure (qAdd acc (mkRat (a + b) 2))
          | none => pure (qAdd acc 2)) acc : Except String ℚ)
        = Except.ok (acc + (l.map claimMidpoint).sum) := by
  induction l with
  | nil => intro acc _; simp [List.foldlM_nil, exceptPure]
  | cons s rest ih =>
    intro acc hall
    rw [List.all_cons, Bool.and_eq_true] at hall
    obtain ⟨d, hd⟩ := Option.isSome_iff_exists.mp hall.1
    have hhead : (do
        let m ← stepDurationMatch s
        match m with
        | some (a, b) => pure (qAdd acc (mkRat (a + b) 2))
        | none => pure (qAdd acc 2) : Except String ℚ)
        = Except.ok (acc + claimMidpoint s) := by
      rw [show stepDurationMatch s = Except.ok (jsMatchRange d) from by
        simp [stepDurationMatch, hd]]
      simp only [exceptBind_ok]
      cases hm : jsMatchRange d with
      | none => simp [exceptPure, qAdd_eq, claimMidpoint, hd, hm]
      | some ab =>
        obtain ⟨a, b⟩ := ab
        simp [exceptPure, qAdd_eq, claimMidpoint, hd, hm]
    simp only [List.foldlM_cons]
    rw [hhead, exceptBind_ok, ih _ hall.2]
    simp only [List.map_cons, List.sum_cons]
    rw [add_assoc]

/-- C6: for plans whose steps all carry a duration value, the reported total
duration is the bucket of the sum of per-step midpoints (unparsable
durations counting 2 hours): at most 8 hours reported in hours, at most 40
in days, larger totals in weeks; in particular the plan with durations
"1-2 hours" and "3-4 hours" totals 1.5 + 3.5 = 5 and reports "5 hours". -/
theorem c6_duration_total :
    (∀ plan : List Step, plan.all (fun s => s.duration.isSome) = true →
      calculatePlanDuration plan = Except.ok (durationBucketString (planTotalMidpoint plan)))
    ∧ calculatePlanDuration c6Plan = Except.ok "5 hours" := by
  constructor
  · intro plan h
    unfold calculatePlanDuration
    rw [duration_foldlM_eq plan 0 h]
    simp only [zero_add, exceptBind_ok, durationBucketString, planTotalMidpoint, qDiv_eq]
    split_ifs <;> rfl
  · decide

/-- Witness for C6 at the worked example. -/
theorem c6_duration_total_witness :
    c6Plan.all (fun s => s.duration.isSome) = true
    ∧ calculatePlanDuration c6Plan = Except.ok (durationBucketString (planTotalMidpoint c6Plan)) :=
  ⟨by decide, c6_duration_total.1 c6Plan (by decide)⟩

/-! ## C4: risk-mitigation score -/

theorem mitigation_foldl_eq (l : List Step) :
    ∀ a b : Nat,
      l.foldl (fun (x : Nat × Nat) s => (x.1 + mitigationStepPoints s, x.2 + 3)) (a, b)
        = (a + mitigationPoints l, b + 3 * l.length) := by
  induction l with
  | nil => intro a b; simp [mitigationPoints]
  | cons s rest ih =>
    intro a b
    rw [List.foldl_cons, ih]
    simp [mitigationPoints, List.sum_cons]
    constructor
    · ring
    · ring

/-- C4: for every non-empty plan the mitigation score equals
`min(100, round(100 × points / (3 × stepCount × 10)))`, where `points` adds
20 per step whose description mentions a mitigation keyword, 15 per step
with a backup-named resource and 10 per step with fewer than 3 dependencies,
and the score is an integer in `[0, 100]`.  (For the empty plan both the
claimed formula and the JS code divide 0 by 0 — the code yields `NaN` —
so the claim is read on non-empty plans.) -/
theorem c4_mitigation_score :
    ∀ plan : List Step, plan ≠ [] →
      assessRiskMitigation plan
        = min 100 (jsRound (100 * (mitigationPoints plan : ℚ) / (3 * (plan.length : ℚ) * 10)))
      ∧ 0 ≤ assessRiskMitigation plan ∧ assessRiskMitigation plan ≤ 100 := by
  intro plan _
  have hx : (0:ℚ) ≤ 100 * (mitigationPoints plan : ℚ) / (3 * (plan.length : ℚ) * 10) := by
    positivity
  have heq : assessRiskMitigation plan
      = min 100 (jsRound (100 * (mitigationPoints plan : ℚ) / (3 * (plan.length : ℚ) * 10))) := by
    unfold assessRiskMitigation
    rw [mitigation_foldl_eq plan 0 0]
    simp only [Nat.zero_add, qMul_eq, qDiv_eq]
    congr 1
    congr 1
    push_cast
    ring
  refine ⟨heq, ?_, ?_⟩
  · rw [heq]
    refine le_min (by norm_num) ?_
    rw [jsRound_eq]
    exact Int.floor_nonneg.mpr (by linarith)
  · rw [heq]
    exact min_le_left _ _

/-! ## C7: exhaustive risk identification -/

theorem listContains_append_left (a b pat : List Char)
    (h : listContains b pat = true) : listContains (a ++ b) pat = true := by
  induction a with
  | nil => simpa using h
  | cons c rest ih =>
    rw [List.cons_append]
    unfold listContains
    split
    · rfl
    · exact ih

theorem jsIncludes_extend_left (t d pat : String)
    (h : jsIncludes (jsToLower d) pat = true) :
    jsIncludes (jsToLower (t ++ " " ++ d)) pat = true := by
  unfold jsIncludes jsToLower at h ⊢
  have hsplit : (t ++ " " ++ d).toList = (t ++ " ").toList ++ d.toList := rfl
  rw [hsplit, List.map_append]
  exact listContains_append_left _ _ _ h

theorem risk_foldl_eq_filter_map (stepText : String) (mk : String → RiskEntry) :
    ∀ (fs : List String) (acc : List RiskEntry),
      fs.foldl (fun acc factor =>
          if jsIncludes stepText factor then acc ++ [mk factor] else acc) acc
        = acc ++ (fs.filter (fun k => jsIncludes stepText k)).map mk := by
  intro fs
  induction fs with
  | nil => intro acc; simp
  | cons f rest ih =>
    intro acc
    rw [List.foldl_cons]
    cases hp : jsIncludes stepText f <;>
      simp [hp, ih, List.filter_cons]

theorem analyzeStepRisks_eq (s : Step) (i : Nat) :
    analyzeStepRisks s i
      = (highRiskFactors.filter (fun k => jsIncludes (stepTextOf s) k)).map (highEntry s i)
        ++ (mediumRiskFactors.filter (fun k => jsIncludes (stepTextOf s) k)).map (medEntry s i) := by
  simp only [analyzeStepRisks, stepTextOf, highEntry, medEntry]
  rw [risk_foldl_eq_filter_map, risk_foldl_eq_filter_map]
  simp only [List.nil_append]
  rfl

theorem stepRisks_if_eq (l : List RiskEntry) : (if l.length > 0 then l else []) = l := by
  cases l <;> simp

theorem identifyRisksAux_any (p : RiskEntry → Bool) :
    ∀ (l : List Step) (i j : Nat) (s : Step), l.get? j = some s →
      (analyzeStepRisks s (i + j)).any p = true →
      (identifyRisksAux i l).any p = true := by
  intro l
  induction l with
  | nil => intro i j s h; simp at h
  | cons hd tl ih =>
    intro i j s hget hany
    simp only [identifyRisksAux, stepRisks_if_eq, List.any_append]
    cases j with
    | zero =>
      rw [List.get?_cons_zero] at hget
      injection hget with hs
      subst hs
      rw [Nat.add_zero] at hany
      rw [hany]
      rfl
    | succ j' =>
      rw [List.get?_cons_succ] at hget
      have : (i + 1) + j' = i + (j' + 1) := by omega
      have h2 := ih (i + 1) j' s hget (by rwa [this])
      rw [h2]
      simp

/-- C7: risk identification is exhaustive — for every step, the produced
entries are exactly one entry per high-risk keyword contained
(case-insensitively) in the concatenated title+description, followed by one
entry per medium-risk keyword contained, with no deduplication; in
particular a step whose description contains "tight timeline" contributes a
high-level entry (with that keyword and the step's 1-based index) to
`identifyRisks`. -/
theorem c7_risk_identification :
    (∀ (s : Step) (i : Nat),
      analyzeStepRisks s i
        = (highRiskFactors.filter (fun k => jsIncludes (stepTextOf s) k)).map (highEntry s i)
          ++ (mediumRiskFactors.filter (fun k => jsIncludes (stepTextOf s) k)).map (medEntry s i))
    ∧ (∀ (plan : List Step) (j : Nat) (s : Step),
        plan.get? j = some s →
        jsIncludes (jsToLower s.description) "tight timeline" = true →
        (identifyRisks plan).any
          (fun e => e.level == "high" && e.risk == "tight timeline" && e.step == j + 1) = true) := by
  constructor
  · exact analyzeStepRisks_eq
  · intro plan j s hget hinc
    have hstep : jsIncludes (stepTextOf s) "tight timeline" = true :=
      jsIncludes_extend_left s.title s.description _ hinc
    have hk : "tight timeline" ∈ highRiskFactors := by decide
    have hmem : highEntry s j "tight timeline" ∈ analyzeStepRisks s j := by
      rw [analyzeStepRisks_eq]
      exact List.mem_append_left _
        (List.mem_map_of_mem _ (List.mem_filter.mpr ⟨hk, hstep⟩))
    have hany : (analyzeStepRisks s (0 + j)).any
        (fun e => e.level == "high" && e.risk == "tight timeline" && e.step == j + 1) = true := by
      rw [Nat.zero_add]
      exact List.any_eq_true.mpr ⟨highEntry s j "tight timeline", hmem, by simp [highEntry]⟩
    exact identifyRisksAux_any _ plan 0 j s hget hany

/-- Witness for C7 at a concrete one-step plan. -/
theorem c7_risk_identification_witness :
    (identifyRisks [riskyStep]).any
      (fun e => e.level == "high" && e.risk == "tight timeline" && e.step == 0 + 1) = true :=
  c7_risk_identification.2 [riskyStep] 0 riskyStep rfl (by decide)

/-! ## C8: termination of the maximum-dependency-depth computation -/

theorem graphUniverse_cons (e : Nat × List Nat) (g : List (Nat × List Nat)) :
    graphUniverse (e :: g) = e.1 :: e.2 ++ graphUniverse g := rfl

theorem mem_graphUniverse_of_mem (g : List (Nat × List Nat)) :
    ∀ e ∈ g, e.1 ∈ graphUniverse g ∧ ∀ x ∈ e.2, x ∈ graphUniverse g := by
  induction g with
  | nil => intro e h; simp at h
  | cons hd tl ih =>
    intro e he
    rw [graphUniverse_cons]
    rcases List.mem_cons.mp he with rfl | htl
    · exact ⟨List.mem_cons_self _ _, fun x hx =>
        List.mem_cons_of_mem _ (List.mem_append_left _ hx)⟩
    · obtain ⟨h1, h2⟩ := ih e htl
      exact ⟨List.mem_cons_of_mem _ (List.mem_append_right _ h1),
        fun x hx => List.mem_cons_of_mem _ (List.mem_append_right _ (h2 x hx))⟩

theorem graphDeps_mem_universe (g : List (Nat × List Nat)) (node x : Nat)
    (hx : x ∈ graphDeps g node) : x ∈ graphUniverse g := by
  unfold graphDeps at hx
  cases h : graphLookup g node with
  | none => rw [h] at hx; simp at hx
  | some l =>
    rw [h] at hx
    simp only [Option.getD_some] at hx
    unfold graphLookup at h
    obtain ⟨e, he, he2⟩ := Option.map_eq_some.mp h  -- wait name check
    exact (mem_graphUniverse_of_mem g e (List.mem_of_find?_eq_some he)).2 x (he2 ▸ hx)

theorem mem_insertAsc (n a : Nat) : ∀ l : List Nat, a ∈ insertAsc n l ↔ a = n ∨ a ∈ l := by
  intro l
  induction l with
  | nil => simp [insertAsc]
  | cons m rest ih =>
    rw [insertAsc]
    split
    · simp
    · simp only [List.mem_cons, ih]
      tauto

theorem mem_sortAsc (a : Nat) : ∀ l : List Nat, a ∈ sortAsc l ↔ a ∈ l := by
  intro l
  induction l with
  | nil => simp [sortAsc]
  | cons n rest ih => rw [sortAsc, mem_insertAsc]; simp [ih]

theorem graphKeys_mem_universe (g : List (Nat × List Nat)) (node : Nat)
    (h : node ∈ graphKeys g) : node ∈ graphUniverse g := by
  unfold graphKeys at h
  rw [mem_sortAsc] at h
  obtain ⟨e, he, heq⟩ := List.mem_map.mp h
  exact heq ▸ (mem_graphUniverse_of_mem g e he).1

theorem foldlM_max_isSome (f : Nat → Option Nat) :
    ∀ (ns : List Nat) (m : Nat), (∀ nb ∈ ns, (f nb).isSome = true) →
      (ns.foldlM (fun (m : Nat) nb => do
          let r ← f nb
          pure (max m r)) m).isSome = true := by
  intro ns
  induction ns with
  | nil => intro m _; rfl
  | cons nb rest ih =>
    intro m h
    rw [List.foldlM_cons]
    obtain ⟨r, hr⟩ := Option.isSome_iff_exists.mp (h nb (List.mem_cons_self _ _))
    rw [hr]
    simp only [Option.some_bind, Option.pure_def]
    exact ih (max m r) (fun x hx => h x (List.mem_cons_of_mem _ hx))

theorem depthGo_isSome (g : List (Nat × List Nat)) :
    ∀ (fuel node depth : Nat) (visited : Finset ℕ),
      node ∈ (graphUniverse g).toFinset →
      ((graphUniverse g).toFinset \ visited).card < fuel →
      (depthGo g fuel node depth visited).isSome = true := by
  intro fuel
  induction fuel with
  | zero => intro node depth visited _ hcard; exact absurd hcard (Nat.not_lt_zero _)
  | succ fuel ih =>
    intro node depth visited hU hcard
    rw [depthGo]
    by_cases hv : node ∈ visited
    · simp [hv]
    · simp only [if_neg hv]
      have hmem : node ∈ (graphUniverse g).toFinset \ visited :=
        Finset.mem_sdiff.mpr ⟨hU, hv⟩
      have hins : ((graphUniverse g).toFinset \ insert node visited).card < fuel := by
        have h1 : (graphUniverse g).toFinset \ insert node visited
            = ((graphUniverse g).toFinset \ visited).erase node := by
          ext x
          simp only [Finset.mem_sdiff, Finset.mem_erase, Finset.mem_insert]
          tauto
        rw [h1, Finset.card_erase_of_mem hmem]
        have hpos : 0 < ((graphUniverse g).toFinset \ visited).card :=
          Finset.card_pos.mpr ⟨node, hmem⟩
        omega
      exact foldlM_max_isSome _ (graphDeps g node) depth (fun nb hnb =>
        ih nb (depth + 1) (insert node visited)
          (List.mem_toFinset.mpr (graphDeps_mem_universe g node nb hnb)) hins)

/-- The maximum-dependency-depth computation never exhausts its fuel —
its per-path visited set shrinks the unvisited universe on every recursive
call — so it returns a value on every finite graph, cyclic or not, with
edges to nonexistent ids or not. -/
theorem calculateMaxDependencyDepth_isSome (g : List (Nat × List Nat)) :
    (calculateMaxDependencyDepth g).isSome = true := by
  unfold calculateMaxDependencyDepth
  exact foldlM_max_isSome _ (graphKeys g) 0 (fun node hnode => by
    apply depthGo_isSome g _ node 1 ∅
      (List.mem_toFinset.mpr (graphKeys_mem_universe g node hnode))
    rw [Finset.sdiff_empty, List.card_toFinset]
    omega)

/-- C8: for every finite plan — including plans whose dependency graph
contains cycles or edges to nonexistent step ids — the
maximum-dependency-depth computation terminates with a finite integer,
because each DFS path carries its own visited set which bounds re-visits
within a path. -/
theorem c8_depth_terminates :
    ∀ plan : List Step, ∃ d : Nat,
      calculateMaxDependencyDepth (buildDependencyGraph plan) = some d :=
  fun plan => Option.isSome_iff_exists.mp
    (calculateMaxDependencyDepth_isSome (buildDependencyGraph plan))

/-! ## Finding types produced by each evaluator -/

theorem feasibilityPerStep_no_failed :
    ∀ (l : List Step) (i : Nat) (f : Finding),
      f ∈ feasibilityPerStep i l → f.ftype ≠ FType.failed := by
  intro l
  induction l with
  | nil => intro i f h; simp [feasibilityPerStep] at h
  | cons s rest ih =>
    intro i f h
    rw [feasibilityPerStep] at h
    rcases List.mem_cons.mp h with rfl | htl
    · simp only [feasibilityFinding]
      split <;> simp
    · exact ih (i + 1) f htl

theorem feasibility_no_failed (task : String) (plan : List Step) :
    ∀ f ∈ validateFeasibility task plan, f.ftype ≠ FType.failed := by
  intro f hf
  unfold validateFeasibility at hf
  rcases List.mem_append.mp hf with h | h
  · exact feasibilityPerStep_no_failed plan 0 f h
  · rcases List.mem_singleton.mp h with rfl
    split <;> simp

theorem resources_no_failed (task : String) (plan : List Step) :
    ∀ f ∈ validateResources task plan, f.ftype ≠ FType.failed := by
  intro f hf
  simp only [validateResources] at hf
  split at hf
  · rcases List.mem_cons.mp hf with rfl | hf2
    · split <;> simp
    · rcases List.mem_singleton.mp hf2 with rfl
      simp
  · rcases List.mem_singleton.mp hf with rfl
    split <;> simp

theorem assessTimeline_fst_no_failed (d : String) (n : Nat) :
    (assessTimeline d n).1 ≠ FType.failed := by
  simp only [assessTimeline]
  cases hw : (match findNumBeforeWord "weeks".toList d.toList with
      | some w => decide (w > 4)
      | none => false) with
  | true => simp [hw]
  | false =>
    simp only [hw, Bool.false_eq_true, if_false]
    split <;> simp

theorem timeline_no_failed (task : String) (plan : List Step) (l : List Finding)
    (hok : validateTimeline task plan = Except.ok l) :
    ∀ f ∈ l, f.ftype ≠ FType.failed := by
  intro f hf
  unfold validateTimeline at hok
  cases hd : calculatePlanDuration plan with
  | error e => rw [hd] at hok; exact absurd hok (by simp [exceptBind_err])
  | ok dur =>
    rw [hd] at hok
    simp only [exceptBind_ok] at hok
    cases hu : identifyUnbalancedDurations plan with
    | error e => rw [hu] at hok; exact absurd hok (by simp [exceptBind_err])
    | ok unb =>
      rw [hu] at hok
      simp only [exceptBind_ok] at hok
      split at hok
      · rw [exceptPure] at hok
        injection hok with hl
        subst hl
        rcases List.mem_cons.mp hf with rfl | hf2
        · exact assessTimeline_fst_no_failed dur plan.length
        · rcases List.mem_singleton.mp hf2 with rfl
          simp
      · rw [exceptPure] at hok
        injection hok with hl
        subst hl
        rcases List.mem_singleton.mp hf with rfl
        exact assessTimeline_fst_no_failed dur plan.length

theorem risks_no_failed (task : String) (plan : List Step) :
    ∀ f ∈ validateRisks task plan, f.ftype ≠ FType.failed := by
  intro f hf
  unfold validateRisks at hf
  rcases List.mem_append.mp hf with h | h
  · rcases List.mem_append.mp h with h1 | h2
    · split at h1
      · rcases List.mem_singleton.mp h1 with rfl; simp
      · simp at h1
    · split at h2
      · rcases List.mem_singleton.mp h2 with rfl; simp
      · simp at h2
  · rcases List.mem_singleton.mp h with rfl
    split <;> simp

theorem deps_failed_is_circular (task : String) (plan : List Step) :
    ∀ f ∈ validateDependencies task plan,
      f.ftype = FType.failed → f.id = "circular-dependencies" := by
  intro f hf hftype
  simp only [validateDependencies] at hf
  rcases List.mem_append.mp hf with h | h
  · rcases List.mem_append.mp h with h1 | h2
    · split at h1
      · rcases List.mem_singleton.mp h1 with rfl; rfl
      · simp at h1
    · split at h2
      · rcases List.mem_singleton.mp h2 with rfl; simp at hftype
      · simp at h2
  · rcases List.mem_singleton.mp h with rfl
    revert hftype
    split <;> simp

theorem deps_filter_failed_le_one (task : String) (plan : List Step) :
    ((validateDependencies task plan).filter
      (fun f => f.ftype == FType.failed)).length ≤ 1 := by
  simp only [validateDependencies]
  by_cases h1 : (detectCircularDependencies (buildDependencyGraph plan)).length > 0 <;>
    by_cases h2 : (identifyComplexDependencies (buildDependencyGraph plan)).length > 0 <;>
      by_cases h3 : (identifyComplexDependencies (buildDependencyGraph plan)).length = 0
          ∧ (detectCircularDependencies (buildDependencyGraph plan)).length = 0 <;>
        simp [h1, h2, h3, List.filter_append] <;>
          split <;> simp

theorem deps_no_failed_of_no_cycles (task : String) (plan : List Step)
    (hnil : detectCircularDependencies (buildDependencyGraph plan) = []) :
    ∀ f ∈ validateDependencies task plan, f.ftype ≠ FType.failed := by
  intro f hf
  simp only [validateDependencies] at hf
  rw [hnil] at hf
  simp only [List.length_nil, gt_iff_lt, lt_self_iff_false, if_false] at hf
  rw [List.nil_append] at hf
  rcases List.mem_append.mp hf with h | h
  · split at h
    · rcases List.mem_singleton.mp h with rfl; simp
    · simp at h
  · rcases List.mem_singleton.mp h with rfl
    split <;> simp

/-! ## Soundness of the cycle detector on rank-acyclic graphs -/

theorem reach_rank_le (g : List (Nat × List Nat)) (f : Nat → Nat)
    (hrank : ∀ u v, v ∈ graphDeps g u → f v < f u) :
    ∀ {u v : Nat}, Reach g u v → f v ≤ f u := by
  intro u v h
  induction h with
  | refl => exact le_refl _
  | tail _ hedge ih => exact le_trans (le_of_lt (hrank _ _ hedge)) ih

theorem dfsFold_no_cycle (g : List (Nat × List Nat)) (f : Nat → Nat)
    (hrank : ∀ u v, v ∈ graphDeps g u → f v < f u)
    (fuel node : Nat) (path : List Nat)
    (IH : ∀ (nd : Nat) (pth : List Nat) (st : DfsState), st.cycles = [] →
      (∀ u ∈ st.recStack, u ∈ st.visited) →
      (∀ u ∈ st.recStack, Reach g u nd) →
      nd ∉ st.visited →
      ∃ visited' : List Nat,
        dfsVisit g fuel nd pth st = (false, ⟨visited', st.recStack, []⟩) ∧
        ∀ u ∈ st.visited, u ∈ visited') :
    ∀ (ns : List Nat) (st : DfsState),
      (∀ nb ∈ ns, nb ∈ graphDeps g node) →
      st.cycles = [] →
      (∀ u ∈ st.recStack, u ∈ st.visited) →
      (∀ u ∈ st.recStack, Reach g u node) →
      node ∈ st.recStack →
      ∃ visited' : List Nat,
        ns.foldl (fun (acc : Bool × DfsState) nb =>
          if acc.1 then acc
          else if nb ∈ acc.2.visited then
            if nb ∈ acc.2.recStack then
              (true, { acc.2 with cycles := acc.2.cycles ++ [path ++ [node, nb]] })
            else (false, acc.2)
          else dfsVisit g fuel nb (path ++ [node]) acc.2) (false, st)
          = (false, ⟨visited', st.recStack, []⟩)
        ∧ ∀ u ∈ st.visited, u ∈ visited' := by
  intro ns
  induction ns with
  | nil =>
    intro st _ hc _ _ _
    refine ⟨st.visited, ?_, fun u hu => hu⟩
    cases st
    simp_all
  | cons nb rest ih =>
    intro st hns hc hrv hreach hnode
    rw [List.foldl_cons]
    by_cases hv : nb ∈ st.visited
    · by_cases hr : nb ∈ st.recStack
      · exfalso
        have h1 : Reach g nb node := hreach nb hr
        have h2 : f nb < f node := hrank node nb (hns nb (List.mem_cons_self _ _))
        have h3 : f node ≤ f nb := reach_rank_le g f hrank h1
        omega
      · have hstep : (if (false, st).1 then (false, st)
            else if nb ∈ (false, st).2.visited then
              if nb ∈ (false, st).2.recStack then
                (true, { (false, st).2 with
                  cycles := (false, st).2.cycles ++ [path ++ [node, nb]] })
              else (false, (false, st).2)
            else dfsVisit g fuel nb (path ++ [node]) (false, st).2)
            = (false, st) := by
          simp [hv, hr]
        rw [hstep]
        exact ih st (fun x hx => hns x (List.mem_cons_of_mem _ hx)) hc hrv hreach hnode
    · have hedge : nb ∈ graphDeps g node := hns nb (List.mem_cons_self _ _)
      obtain ⟨v', heq, hsub⟩ := IH nb (path ++ [node]) st hc hrv
        (fun u hu => Relation.ReflTransGen.tail (hreach u hu) hedge) hv
      have hstep : (if (false, st).1 then (false, st)
          else if nb ∈ (false, st).2.visited then
            if nb ∈ (false, st).2.recStack then
              (true, { (false, st).2 with
                cycles := (false, st).2.cycles ++ [path ++ [node, nb]] })
            else (false, (false, st).2)
          else dfsVisit g fuel nb (path ++ [node]) (false, st).2)
          = (false, (⟨v', st.recStack, []⟩ : DfsState)) := by
        simp only [hv, if_false, if_neg hv]
        simpa using heq
      rw [hstep]
      obtain ⟨v'', heq2, hsub2⟩ := ih ⟨v', st.recStack, []⟩
        (fun x hx => hns x (List.mem_cons_of_mem _ hx)) rfl
        (fun u hu => hsub u (hrv u hu)) hreach hnode
      exact ⟨v'', heq2, fun u hu => hsub2 u (hsub u hu)⟩

theorem dfsVisit_no_cycle (g : List (Nat × List Nat)) (f : Nat → Nat)
    (hrank : ∀ u v, v ∈ graphDeps g u → f v < f u) :
    ∀ (fuel node : Nat) (path : List Nat) (st : DfsState),
      st.cycles = [] →
      (∀ u ∈ st.recStack, u ∈ st.visited) →
      (∀ u ∈ st.recStack, Reach g u node) →
      node ∉ st.visited →
      ∃ visited' : List Nat,
        dfsVisit g fuel node path st = (false, ⟨visited', st.recStack, []⟩) ∧
        ∀ u ∈ st.visited, u ∈ visited' := by
  intro fuel
  induction fuel with
  | zero =>
    intro node path st hc _ _ _
    refine ⟨st.visited, ?_, fun u hu => hu⟩
    cases st
    simp_all [dfsVisit]
  | succ fuel ihf =>
    intro node path st hc hrv hreach hnv
    obtain ⟨v', hfold, hsub⟩ := dfsFold_no_cycle g f hrank fuel node path ihf
      (graphDeps g node) ⟨node :: st.visited, node :: st.recStack, st.cycles⟩
      (fun nb h => h)
      hc
      (by
        intro u hu
        rcases List.mem_cons.mp hu with rfl | h
        · exact List.mem_cons_self _ _
        · exact List.mem_cons_of_mem _ (hrv u h))
      (by
        intro u hu
        rcases List.mem_cons.mp hu with rfl | h
        · exact Relation.ReflTransGen.refl
        · exact hreach u h)
      (List.mem_cons_self _ _)
    refine ⟨v', ?_, fun u hu => hsub u (List.mem_cons_of_mem _ hu)⟩
    simp only [dfsVisit]
    rw [if_neg hnv, hfold]
    simp [List.erase_cons_head]

theorem detect_nil_of_rankAcyclic (g : List (Nat × List Nat))
    (h : rankAcyclic g) : detectCircularDependencies g = [] := by
  obtain ⟨f, hrank⟩ := h
  unfold detectCircularDependencies
  suffices hs : ∀ (keys : List Nat) (st : DfsState), st.cycles = [] →
      (∀ u ∈ st.recStack, u ∈ st.visited) → st.recStack = [] →
      (keys.foldl (fun st node => if node ∈ st.visited then st
        else (dfsVisit g ((graphUniverse g).length + 1) node [] st).2) st).cycles = [] by
    exact hs (graphKeys g) ⟨[], [], []⟩ rfl (by intro u hu; simp at hu) rfl
  intro keys
  induction keys with
  | nil => intro st hcy _ _; exact hcy
  | cons k rest ih =>
    intro st hcy hrv hre
    rw [List.foldl_cons]
    by_cases hv : k ∈ st.visited
    · rw [if_pos hv]
      exact ih st hcy hrv hre
    · rw [if_neg hv]
      obtain ⟨v', heq, _⟩ := dfsVisit_no_cycle g f hrank _ k [] st hcy hrv
        (by rw [hre]; intro u hu; simp at hu) hv
      rw [heq]
      exact ih ⟨v', st.recStack, []⟩ rfl
        (by rw [hre]; intro u hu; simp at hu) hre

theorem filter_failed_eq_nil (l : List Finding)
    (h : ∀ f ∈ l, f.ftype ≠ FType.failed) :
    l.filter (fun f => f.ftype == FType.failed) = [] := by
  rw [List.filter_eq_nil_iff]
  intro f hf
  simp [h f hf]

theorem recs_no_high (v : List Finding)
    (h : v.filter (fun f => f.ftype == FType.failed) = []) :
    ∀ r ∈ generateRecommendations v, r.priority ≠ "High" := by
  intro r hr
  simp only [generateRecommendations, h, List.length_nil, gt_iff_lt, lt_self_iff_false,
    if_false, List.nil_append] at hr
  rcases List.mem_append.mp hr with h23 | h4
  · rcases List.mem_append.mp h23 with h2 | h3
    · split at h2
      · rcases List.mem_singleton.mp h2 with rfl; simp
      · simp at h2
    · split at h3
      · rcases List.mem_singleton.mp h3 with rfl; simp
      · simp at h3
  · split at h4
    · rcases List.mem_singleton.mp h4 with rfl; simp
    · simp at h4

theorem success_validations_mem (task : String) (plan : List Step) (vT : List Finding)
    (ht : validateTimeline task plan = Except.ok vT) :
    ∀ f ∈ validateFeasibility task plan ++ validateResources task plan ++ vT ++
        validateDependencies task plan ++ validateRisks task plan,
      f.ftype = FType.failed → f.id = "circular-dependencies" := by
  intro f hf hft
  rcases List.mem_append.mp hf with h1 | hrk
  swap
  · exact absurd hft (risks_no_failed task plan f hrk)
  rcases List.mem_append.mp h1 with h2 | hde
  swap
  · exact deps_failed_is_circular task plan f hde hft
  rcases List.mem_append.mp h2 with h3 | hti
  swap
  · exact absurd hft (timeline_no_failed task plan vT ht f hti)
  rcases List.mem_append.mp h3 with hfe | hre
  · exact absurd hft (feasibility_no_failed task plan f hfe)
  · exact absurd hft (resources_no_failed task plan f hre)

theorem success_validations_no_failed (task : String) (plan : List Step)
    (vT : List Finding) (ht : validateTimeline task plan = Except.ok vT)
    (hnil : detectCircularDependencies (buildDependencyGraph plan) = []) :
    ∀ f ∈ validateFeasibility task plan ++ validateResources task plan ++ vT ++
        validateDependencies task plan ++ validateRisks task plan,
      f.ftype ≠ FType.failed := by
  intro f hf
  rcases List.mem_append.mp hf with h1 | hrk
  swap
  · exact risks_no_failed task plan f hrk
  rcases List.mem_append.mp h1 with h2 | hde
  swap
  · exact deps_no_failed_of_no_cycles task plan hnil f hde
  rcases List.mem_append.mp h2 with h3 | hti
  swap
  · exact timeline_no_failed task plan vT ht f hti
  rcases List.mem_append.mp h3 with hfe | hre
  · exact feasibility_no_failed task plan f hfe
  · exact resources_no_failed task plan f hre

/-- C10: in every validation result the only finding that can be `failed` is
the circular-dependencies finding; consequently, when the dependency graph
is acyclic (witnessed by a rank function decreasing along edges) there is no
`failed` finding at all, and no high-priority "address failed validations"
recommendation is ever emitted. -/
theorem c10_only_circular_failed :
    ∀ (task : String) (plan : List Step),
      ((okValidations (validatePlan task (some plan))).filter
          (fun f => f.ftype == FType.failed)).all
        (fun f => f.id == "circular-dependencies") = true
      ∧ (rankAcyclic (buildDependencyGraph plan) →
          (okValidations (validatePlan task (some plan))).all
            (fun f => f.ftype != FType.failed) = true
          ∧ (okRecommendations (validatePlan task (some plan))).all
            (fun r => r.priority != "High") = true) := by
  intro task plan
  rw [validatePlan_some_eq]
  cases ht : validateTimeline task plan with
  | error e =>
    refine ⟨by simp [okValidations, VResult.validationsList, getFallbackValidations], ?_⟩
    intro _
    exact ⟨by simp [okValidations, VResult.validationsList, getFallbackValidations],
      by simp [okRecommendations]⟩
  | ok vT =>
    simp only [okValidations, VResult.validationsList, okRecommendations]
    constructor
    · rw [List.all_eq_true]
      intro f hf
      rw [List.mem_filter] at hf
      have hft : f.ftype = FType.failed := by
        have := hf.2
        simpa using this
      have := success_validations_mem task plan vT ht f hf.1 hft
      simp [this]
    · intro hacyc
      have hnil := detect_nil_of_rankAcyclic _ hacyc
      have hnf := success_validations_no_failed task plan vT ht hnil
      constructor
      · rw [List.all_eq_true]
        intro f hf
        simpa [bne_iff_ne] using hnf f hf
      · rw [List.all_eq_true]
        intro r hr
        have hfil := filter_failed_eq_nil _ hnf
        simpa [bne_iff_ne] using recs_no_high _ hfil r hr

/-- Witness for C10 at a concrete acyclic plan. -/
theorem c10_only_circular_failed_witness :
    ((okValidations (validatePlan "t" (some c3PlanAcyclic))).filter
        (fun f => f.ftype == FType.failed)).all
      (fun f => f.id == "circular-dependencies") = true
    ∧ (okValidations (validatePlan "t" (some c3PlanAcyclic))).all
        (fun f => f.ftype != FType.failed) = true
    ∧ (okRecommendations (validatePlan "t" (some c3PlanAcyclic))).all
        (fun r => r.priority != "High") = true := by
  have h := c10_only_circular_failed "t" c3PlanAcyclic
  have hacyc : rankAcyclic (buildDependencyGraph c3PlanAcyclic) := by
    refine ⟨fun n => n, ?_⟩
    intro u v hv
    have : graphDeps (buildDependencyGraph c3PlanAcyclic) u = [] ∨ u = 2 := by
      by_cases hu1 : u = 1
      · subst hu1; left; rfl
      · by_cases hu2 : u = 2
        · right; exact hu2
        · left
          simp only [buildDependencyGraph, c3PlanAcyclic] at *
          simp [graphDeps, graphLookup, upsert, List.find?, hu1, hu2]
          split
          · rename_i hcontra
            exact absurd (eq_of_beq hcontra).symm hu1
          · split
            · rename_i hcontra
              exact absurd (eq_of_beq hcontra).symm hu2
            · rfl
    rcases this with hnil | hu2
    · rw [hnil] at hv; simp at hv
    · subst hu2
      have : v ∈ ([1] : List Nat) := hv
      have hv1 : v = 1 := by simpa using this
      subst hv1
      exact Nat.one_lt_two
  exact ⟨h.1, (h.2 hacyc).1, (h.2 hacyc).2⟩

/-! ## C1: the validation score -/

theorem findingWeight_nonneg (ft : FType) : 0 ≤ findingWeight ft := by
  cases ft <;> norm_num [findingWeight, mkRat_eq_div]

theorem findingWeight_le_one (ft : FType) : findingWeight ft ≤ 1 := by
  cases ft <;> norm_num [findingWeight, mkRat_eq_div]

theorem findingWeight_ge_half (ft : FType) (h : ft ≠ FType.failed) :
    1/2 ≤ findingWeight ft := by
  cases ft with
  | passed => norm_num [findingWeight]
  | warning => norm_num [findingWeight, mkRat_eq_div]
  | failed => exact absurd rfl h

theorem weightSum_nil : weightSum [] = 0 := rfl

theorem weightSum_cons (f : Finding) (l : List Finding) :
    weightSum (f :: l) = findingWeight f.ftype + weightSum l := by
  simp [weightSum]

theorem weightSum_nonneg (l : List Finding) : 0 ≤ weightSum l := by
  induction l with
  | nil => norm_num [weightSum_nil]
  | cons f rest ih =>
    rw [weightSum_cons]
    exact add_nonneg (findingWeight_nonneg f.ftype) ih

theorem weightSum_le_length (l : List Finding) : weightSum l ≤ (l.length : ℚ) := by
  induction l with
  | nil => norm_num [weightSum_nil]
  | cons f rest ih =>
    rw [weightSum_cons, List.length_cons]
    push_cast
    linarith [findingWeight_le_one f.ftype]

theorem weightSum_all_passed (l : List Finding)
    (h : ∀ f ∈ l, f.ftype = FType.passed) : weightSum l = (l.length : ℚ) := by
  induction l with
  | nil => norm_num [weightSum_nil]
  | cons f rest ih =>
    rw [weightSum_cons, List.length_cons, h f (List.mem_cons_self _ _),
      ih (fun x hx => h x (List.mem_cons_of_mem _ hx))]
    simp only [findingWeight]
    push_cast
    ring

theorem weightSum_all_failed (l : List Finding)
    (h : ∀ f ∈ l, f.ftype = FType.failed) : weightSum l = 0 := by
  induction l with
  | nil => exact weightSum_nil
  | cons f rest ih =>
    rw [weightSum_cons, h f (List.mem_cons_self _ _),
      ih (fun x hx => h x (List.mem_cons_of_mem _ hx))]
    norm_num [findingWeight]

theorem weightSum_ge_length_sub_failed (l : List Finding) :
    ((l.length : ℚ) - (l.filter (fun f => f.ftype == FType.failed)).length) / 2
      ≤ weightSum l := by
  induction l with
  | nil => norm_num [weightSum_nil]
  | cons f rest ih =>
    rw [weightSum_cons, List.length_cons, List.filter_cons]
    by_cases hft : f.ftype = FType.failed
    · simp only [hft, beq_self_eq_true, if_true, List.length_cons]
      push_cast
      norm_num [findingWeight]
      linarith
    · have hbeq : (f.ftype == FType.failed) = false := by simpa using hft
      simp only [hbeq, Bool.false_eq_true, if_false]
      push_cast
      linarith [findingWeight_ge_half f.ftype hft]

theorem weightSum_ge_half_of_mem (l : List Finding) (f : Finding)
    (hf : f ∈ l) (hne : f.ftype ≠ FType.failed) : 1/2 ≤ weightSum l := by
  induction l with
  | nil => simp at hf
  | cons a rest ih =>
    rw [weightSum_cons]
    rcases List.mem_cons.mp hf with rfl | hmem
    · linarith [findingWeight_ge_half f.ftype hne, weightSum_nonneg rest]
    · linarith [ih hmem, findingWeight_nonneg a.ftype]

theorem foldl_qAdd_weight (l : List Finding) :
    ∀ a : ℚ, l.foldl (fun acc v => qAdd acc (findingWeight v.ftype)) a
      = a + weightSum l := by
  induction l with
  | nil => intro a; simp [weightSum_nil]
  | cons f rest ih =>
    intro a
    rw [List.foldl_cons, qAdd_eq, ih, weightSum_cons]
    ring

theorem calcScore_eq (l : List Finding) :
    calculateValidationScore l = jsRound (weightSum l / (l.length : ℚ) * 100) := by
  simp only [calculateValidationScore]
  rw [foldl_qAdd_weight l 0, zero_add, qMul_eq, qDiv_eq]

theorem jsRound_nonneg (q : ℚ) (h : 0 ≤ q) : 0 ≤ jsRound q := by
  rw [jsRound_eq]
  exact Int.floor_nonneg.mpr (by linarith)

theorem jsRound_le_100 (q : ℚ) (h : q ≤ 100) : jsRound q ≤ 100 := by
  rw [jsRound_eq]
  have h1 : ⌊q + 1/2⌋ ≤ ⌊(201:ℚ)/2⌋ := Int.floor_le_floor (by linarith)
  have h2 : ⌊(201:ℚ)/2⌋ = 100 := by norm_num
  omega

theorem jsRound_100 : jsRound (100:ℚ) = 100 := by
  rw [jsRound_eq]; norm_num

theorem jsRound_0 : jsRound (0:ℚ) = 0 := by
  rw [jsRound_eq]; norm_num

theorem jsRound_ge_one (q : ℚ) (h : 1/2 ≤ q) : 1 ≤ jsRound q := by
  rw [jsRound_eq]
  exact Int.le_floor.mpr (by push_cast; linarith)

set_option maxRecDepth 10000 in
/-- C1 counterexample: the claim says the score is 100 **iff** every finding
is `passed`, but on 95 identical feasible steps the 100 findings contain one
timeline warning (95 steps exceed the 10-step threshold) and 99 passes, so
the weighted ratio is 99.5% and `Math.round` still reports 100. -/
theorem c1_counterexample :
    okScore (validatePlan "t" (some plan95)) = some 100
    ∧ ((okValidations (validatePlan "t" (some plan95))).filter
        (fun f => f.ftype == FType.warning)).length = 1 :=
  ⟨by decide, by decide⟩

/-- C1 (amended): for every plan, the score of a successful validation is
`round(100 × sum(weights)/count)` over the produced findings with
`passed = 1`, `warning = 0.5`, `failed = 0`; it lies in `[0, 100]`; if every
finding is `passed` the score is 100, and the score is 0 exactly when every
finding is `failed`.  The converse of the 100 case is false: a score of 100
does not imply that every finding passed (see the counterexample, where one
warning among 100 findings is rounded away). -/
theorem c1_score_amended :
    ∀ (task : String) (plan : List Step) (s : Int),
      okScore (validatePlan task (some plan)) = some s →
      s = calculateValidationScore (okValidations (validatePlan task (some plan)))
      ∧ 0 ≤ s ∧ s ≤ 100
      ∧ ((okValidations (validatePlan task (some plan))).all
          (fun f => f.ftype == FType.passed) = true → s = 100)
      ∧ (s = 0 ↔ (okValidations (validatePlan task (some plan))).all
          (fun f => f.ftype == FType.failed) = true) := by
  intro task plan s hs
  rw [validatePlan_some_eq] at hs ⊢
  cases ht : validateTimeline task plan with
  | error e =>
    rw [ht] at hs
    simp [okScore] at hs
  | ok vT =>
    rw [ht] at hs
    simp only [okScore, Option.some.injEq] at hs
    simp only [okValidations, VResult.validationsList]
    set v := validateFeasibility task plan ++ validateResources task plan ++ vT ++
      validateDependencies task plan ++ validateRisks task plan with hv
    have hseq : s = calculateValidationScore v := hs.symm
    have hlen1 : 1 ≤ v.length := by
      have hfe : 1 ≤ (validateFeasibility task plan).length := by
        simp only [validateFeasibility, List.length_append, List.length_singleton]
        omega
      rw [hv]
      simp only [List.length_append]
      omega
    have hn0 : (0:ℚ) < (v.length : ℚ) := by
      have : 0 < v.length := hlen1
      exact_mod_cast this
    have hfc : ((v.filter (fun f => f.ftype == FType.failed)).length ≤ 1) := by
      rw [hv, List.filter_append, List.filter_append, List.filter_append,
        List.filter_append,
        filter_failed_eq_nil _ (feasibility_no_failed task plan),
        filter_failed_eq_nil _ (resources_no_failed task plan),
        filter_failed_eq_nil _ (timeline_no_failed task plan vT ht),
        filter_failed_eq_nil _ (risks_no_failed task plan)]
      simpa using deps_filter_failed_le_one task plan
    have hW0 : 0 ≤ weightSum v := weightSum_nonneg v
    refine ⟨hseq, ?_, ?_, ?_, ?_⟩
    · rw [hseq, calcScore_eq]
      exact jsRound_nonneg _ (by positivity)
    · rw [hseq, calcScore_eq]
      refine jsRound_le_100 _ ?_
      have h1 : weightSum v / (v.length : ℚ) ≤ 1 :=
        (div_le_one hn0).mpr (weightSum_le_length v)
      linarith
    · intro hall
      have hall' : ∀ f ∈ v, f.ftype = FType.passed := by
        rw [List.all_eq_true] at hall
        intro f hf
        exact eq_of_beq (hall f hf)
      rw [hseq, calcScore_eq, weightSum_all_passed v hall',
        div_self (ne_of_gt hn0), one_mul]
      exact jsRound_100
    · constructor
      · intro hs0
        by_contra hnall
        rw [List.all_eq_true] at hnall
        push_neg at hnall
        obtain ⟨f, hf, hfne⟩ := hnall
        have hne : f.ftype ≠ FType.failed := by
          intro hcon
          exact hfne (by simp [hcon])
        have hW1 : 1/2 ≤ weightSum v := weightSum_ge_half_of_mem v f hf hne
        have hW2 := weightSum_ge_length_sub_failed v
        have hfcq : ((v.filter (fun f => f.ftype == FType.failed)).length : ℚ) ≤ 1 := by
          exact_mod_cast hfc
        have hhalf : 1/2 ≤ weightSum v / (v.length : ℚ) * 100 := by
          rw [div_mul_eq_mul_div, le_div_iff₀ hn0]
          rcases le_or_lt ((v.length : ℚ)) 100 with hc | hc
          · linarith
          · linarith
        have hge := jsRound_ge_one _ hhalf
        rw [hseq, calcScore_eq] at hs0
        omega
      · intro hall
        have hall' : ∀ f ∈ v, f.ftype = FType.failed := by
          rw [List.all_eq_true] at hall
          intro f hf
          exact eq_of_beq (hall f hf)
        rw [hseq, calcScore_eq, weightSum_all_failed v hall', zero_div, zero_mul]
        exact jsRound_0

/-- Witness for C1 (amended) at the empty plan (score 90: four passes and
the risk-mitigation warning). -/
theorem c1_score_amended_witness :
    okScore (validatePlan "tw" (some [])) = some 90
    ∧ ((90:Int) = calculateValidationScore (okValidations (validatePlan "tw" (some [])))
      ∧ (0:Int) ≤ 90 ∧ (90:Int) ≤ 100
      ∧ ((okValidations (validatePlan "tw" (some []))).all
          (fun f => f.ftype == FType.passed) = true → (90:Int) = 100)
      ∧ ((90:Int) = 0 ↔ (okValidations (validatePlan "tw" (some []))).all
          (fun f => f.ftype == FType.failed) = true)) :=
  ⟨by decide, c1_score_amended "tw" [] 90 (by decide)⟩

/-- Witness for C4 at a concrete one-step plan. -/
theorem c4_mitigation_score_witness :
    [demoStep] ≠ ([] : List Step)
    ∧ (assessRiskMitigation [demoStep]
        = min 100 (jsRound (100 * (mitigationPoints [demoStep] : ℚ) / (3 * (([demoStep] : List Step).length : ℚ) * 10)))
      ∧ 0 ≤ assessRiskMitigation [demoStep] ∧ assessRiskMitigation [demoStep] ≤ 100) :=
  ⟨by decide, c4_mitigation_score [demoStep] (by decide)⟩

end TaskOrchestrator
